import Mathlib

/-!
Shallow embedding of the remittance-reconciliation program
(`src/headerDetection.js`, `src/dataProcessor.js`) and proofs about it.

Modelling conventions:
* Strings are `List Char`; JavaScript `toLowerCase` is mapped ASCII lowering
  (the data in scope is ASCII).
* JavaScript numbers are embedded as `ℚ`.  The only non-finite value the
  program can produce is `+Infinity` (an unguarded division by zero in the
  uniqueness feature of `findHeaderRow`), so scores live in `JsNum`,
  rationals extended with one infinite element.
* A grid cell is one of: null/undefined, a number, a string, a boolean, or a
  Date object.  `Cell.cnull` merges JS `null` and `undefined`: every use the
  program makes of grid cells treats them identically (the `!== null`,
  `!== undefined` emptiness test; optional chaining `cell?.toString()`;
  `typeof` dispatch; `parseFloat` yields NaN on both).
* A Date object is carried together with its `toString` rendering, which is
  all the program ever observes of it.
* `parseFloat` is modelled on decimal literals with optional exponent, the
  only shapes occurring in spreadsheet data; the JS extras (`Infinity`,
  hexadecimal for `Number`) are outside the model.
-/

abbrev Str := List Char

/-- ASCII lowering, the behaviour of `toLowerCase` on the data in scope. -/
def strLower (s : Str) : Str := s.map Char.toLower

def isDigitCh (c : Char) : Bool := '0' ≤ c && c ≤ '9'

/-- Whitespace skipped by `parseFloat` / trimmed by `String.prototype.trim`. -/
def isJsSpace (c : Char) : Bool :=
  c = ' ' || c = '\t' || c = '\n' || c = '\r' || c = '\x0b' || c = '\x0c'

def trimWs (s : Str) : Str :=
  ((s.dropWhile isJsSpace).reverse.dropWhile isJsSpace).reverse

/-- Longest digit prefix of a string, together with the rest. -/
def takeDigits : Str → Str × Str
  | [] => ([], [])
  | c :: r =>
    if isDigitCh c then
      let p := takeDigits r
      (c :: p.1, p.2)
    else ([], c :: r)

/-- Value of a digit string read in base 10. -/
def digitsVal (ds : Str) : Nat := ds.foldl (fun a c => a * 10 + (c.toNat - 48)) 0

/-- Optional sign at the front of a numeric literal: `(negative?, rest)`. -/
def parseSign : Str → Bool × Str
  | '-' :: r => (true, r)
  | '+' :: r => (false, r)
  | s => (false, s)

/-- Optional exponent part `e`/`E` sign digits of a JS float literal.
Returns the signed exponent and the rest; an ill-formed exponent is not
consumed at all (as in `parseFloat`, which then stops before the `e`). -/
def parseExp : Str → Int × Str
  | [] => (0, [])
  | c :: r =>
    if c = 'e' || c = 'E' then
      let sg := parseSign r
      let ds := takeDigits sg.2
      if ds.1 = [] then (0, c :: r)
      else ((if sg.1 then -(digitsVal ds.1 : Int) else (digitsVal ds.1 : Int)), ds.2)
    else (0, c :: r)

/-- JS `parseFloat`: skip leading whitespace, read an optional sign, the
longest decimal-literal prefix, and an optional well-formed exponent;
`none` models NaN (no numeric prefix at all). -/
def parseFloatCore (s : Str) : Option ℚ :=
  let s1 := s.dropWhile isJsSpace
  let sg := parseSign s1
  let ip := takeDigits sg.2
  let fp : Str × Str :=
    match ip.2 with
    | '.' :: r => takeDigits r
    | _ => ([], ip.2)
  if ip.1 = [] ∧ fp.1 = [] then none
  else
    let mant : ℚ := (digitsVal ip.1 : ℚ) + (digitsVal fp.1 : ℚ) / ((10 : ℚ) ^ fp.1.length)
    let e := (parseExp fp.2).1
    let v := mant * (10 : ℚ) ^ e
    some (if sg.1 then -v else v)

/-- The composite `parseFloat(s) || 0` used throughout the program: NaN
becomes 0 (a parsed 0 stays 0, so `Option.getD` is exact). -/
def parseFloatOrZero (s : Str) : ℚ := (parseFloatCore s).getD 0

/-- JS `isNaN(s)`-negated, i.e. `Number(s)` is a number: after trimming, the
empty string converts to 0, otherwise the whole string must be one decimal
float literal.  (`Number`'s hexadecimal and `Infinity` forms do not occur in
the data in scope and are outside the model.) -/
def strIsNumeric (s : Str) : Bool :=
  let t := trimWs s
  if t = [] then true
  else
    let sg := parseSign t
    let ip := takeDigits sg.2
    let fp : Str × Str :=
      match ip.2 with
      | '.' :: r => takeDigits r
      | _ => ([], ip.2)
    if ip.1 = [] ∧ fp.1 = [] then false
    else (parseExp fp.2).2 = []

/-- Decimal digits of the fractional part `q` (with `0 ≤ q < 1`), produced
greedily; `fuel` bounds the length (JS prints the shortest representation of
a float64, which for the in-scope finite-decimal values is this exact
expansion). -/
def fracDigits : Nat → ℚ → Str
  | 0, _ => []
  | fuel + 1, q =>
    if q = 0 then []
    else
      let q10 := q * 10
      let d := (⌊q10⌋).toNat
      Char.ofNat (48 + d) :: fracDigits fuel (q10 - (d : ℚ))

/-- Rendering of a non-negative JS number, `String(q)`. -/
def numToStringNN (q : ℚ) : Str :=
  let ip := (⌊q⌋).toNat
  let fr := q - (ip : ℚ)
  Nat.toDigits 10 ip ++ (if fr = 0 then [] else '.' :: fracDigits 64 fr)

/-- Rendering of a JS number, `String(q)` (decimal notation; the exponent
notation JS switches to beyond 1e21/1e-7 is outside the model). -/
def numToString (q : ℚ) : Str :=
  if q < 0 then '-' :: numToStringNN (-q) else numToStringNN q

/-- Is `needle` a contiguous substring of `hay` (JS `String.prototype.includes`)? -/
def isSubstring (needle : Str) : Str → Bool
  | [] => needle.isEmpty
  | c :: r => needle.isPrefixOf (c :: r) || isSubstring needle r


/-- A grid cell: null/undefined, a JS number, a string, a boolean, or a Date
object carried with its `toString` rendering. -/
inductive Cell where
  | cnull : Cell
  | cnum : ℚ → Cell
  | cstr : Str → Cell
  | cbool : Bool → Cell
  | cdate : Str → Cell
deriving DecidableEq

instance : Inhabited Cell := ⟨Cell.cnull⟩

/-- The non-emptiness test the program repeats everywhere:
`cell !== null && cell !== undefined && cell !== ''`. -/
def Cell.isNonEmpty : Cell → Bool
  | .cnull => false
  | .cstr [] => false
  | _ => true

/-- The value of `cell?.toString()?.toLowerCase()`: `none` is the
`undefined` produced by optional chaining on null/undefined. -/
def stringifyLower : Cell → Option Str
  | .cnull => none
  | .cnum q => strLower (numToString q)
  | .cstr s => strLower s
  | .cbool b => if b then ['t', 'r', 'u', 'e'] else ['f', 'a', 'l', 's', 'e']
  | .cdate s => strLower s

/-- JS property-key coercion `String(v)` of an identifier value; `none` is
an absent field, whose value reads back as `undefined`. -/
def stringifyKey : Option Cell → Str
  | none => ['u', 'n', 'd', 'e', 'f', 'i', 'n', 'e', 'd']
  | some .cnull => ['n', 'u', 'l', 'l']
  | some (.cnum q) => numToString q
  | some (.cstr s) => s
  | some (.cbool b) => if b then ['t', 'r', 'u', 'e'] else ['f', 'a', 'l', 's', 'e']
  | some (.cdate s) => s

/-- A JS number as the scoring code can produce it: a finite value or
`+Infinity` (from the unguarded division in the uniqueness feature).
NaN is unreachable there: the only zero-denominator division has a
positive numerator (see `jsDiv`). -/
inductive JsNum where
  | fin : ℚ → JsNum
  | inf : JsNum
deriving DecidableEq

/-- Addition; `+Infinity` absorbs (no `-Infinity` or NaN can occur). -/
def JsNum.add : JsNum → JsNum → JsNum
  | .fin a, .fin b => .fin (a + b)
  | _, _ => .inf

/-- Multiplication by a positive rational constant (all the score weights
and penalty factors are positive), so `+Infinity` is preserved. -/
def JsNum.mulC (c : ℚ) : JsNum → JsNum
  | .fin a => .fin (c * a)
  | .inf => .inf

/-- Strict `<` on JS numbers as they occur here. -/
def JsNum.ltb : JsNum → JsNum → Bool
  | .fin a, .fin b => decide (a < b)
  | .fin _, .inf => true
  | .inf, _ => false

/-- Non-strict `≤` on JS numbers as they occur here. -/
def JsNum.leb : JsNum → JsNum → Bool
  | .fin a, .fin b => decide (a ≤ b)
  | .inf, .fin _ => false
  | _, .inf => true

/-- JS division of the uniqueness feature: the denominator is the count of
non-empty cells, the numerator the Set size, which is positive whenever the
division is reached, so a zero denominator yields `+Infinity`. -/
def jsDiv (n d : Nat) : JsNum :=
  if d = 0 then .inf else .fin ((n : ℚ) / (d : ℚ))

abbrev Row := List Cell

/-- A grid as `sheet_to_json(…, {header: 1})` hands it to `findHeaderRow`;
a `none` row models an absent (`undefined`/null) row, which the scan skips. -/
abbrev Grid := List (Option Row)

/-- Row `r` of the grid; an absent row reads as the empty row (the program
only reaches row contents after its non-null, non-empty guards). -/
def getRow (g : Grid) (r : Nat) : Row := (g.getD r none).getD []

/-- The `jsonData.slice(headerRowIndex + 1, headerRowIndex + Math.min(5,
jsonData.length - headerRowIndex - 1))` window of
`evaluateConsistencyOfFollowingRows`: `slice` keeps indices `start ≤ i < end`,
so the kept count is `min 5 (rowCount - r - 1) - 1`. -/
def lookaheadSlice (g : Grid) (r : Nat) : List (Option Row) :=
  (g.drop (r + 1)).take (min 5 (g.length - r - 1) - 1)

/-- The value-type categories of the column-consistency check. -/
inductive ValueType where
  | number : ValueType
  | date : ValueType
  | numericString : ValueType
  | plainString : ValueType
  | boolean : ValueType
deriving DecidableEq

def isSepCh (c : Char) : Bool := c = '/' || c = '-' || c = '.'

/-- Match against `^\d{1,2}[\/\-\.]\d{1,2}[\/\-\.]\d{2,4}$` (the greedy
digit-runs-between-separators reading is equivalent because separators and
end-of-string are non-digits). -/
def isDateLike (s : Str) : Bool :=
  let p1 := takeDigits s
  if p1.1.length = 0 || 2 < p1.1.length then false
  else
    match p1.2 with
    | c :: r1 =>
      if isSepCh c then
        let p2 := takeDigits r1
        if p2.1.length = 0 || 2 < p2.1.length then false
        else
          match p2.2 with
          | c2 :: r2 =>
            if isSepCh c2 then
              let p3 := takeDigits r2
              decide (2 ≤ p3.1.length) && decide (p3.1.length ≤ 4) && p3.2.isEmpty
            else false
          | [] => false
      else false
    | [] => false

/-- Category a non-empty cell adds to the `types` set (a Date object, being
neither number, string nor boolean, adds nothing). -/
def typeCatOf : Cell → Option ValueType
  | .cnum _ => some .number
  | .cstr s =>
    some (if isDateLike s then .date
          else if strIsNumeric s then .numericString else .plainString)
  | .cbool _ => some .boolean
  | _ => none

/-- Cells of column `j` over the lookahead rows (`colIndex < row.length`). -/
def columnCells (dataRows : List Row) (j : Nat) : List Cell :=
  dataRows.filterMap (fun row => row[j]?)

/-- The cells counted by `validCells`. -/
def columnValid (dataRows : List Row) (j : Nat) : List Cell :=
  (columnCells dataRows j).filter Cell.isNonEmpty

/-- The distinct type categories of column `j` (the `types` Set). -/
def columnTypes (dataRows : List Row) (j : Nat) : List ValueType :=
  ((columnValid dataRows j).filterMap typeCatOf).dedup

/-- `validCells > 0 && types.size <= 2`. -/
def columnIsConsistent (dataRows : List Row) (j : Nat) : Bool :=
  decide (0 < (columnValid dataRows j).length) &&
    decide ((columnTypes dataRows j).length ≤ 2)

/-- `evaluateConsistencyOfFollowingRows` of `headerDetection.js` (a `none`
row inside the slice contributes no cells; `findHeaderRow` never hands it
one). -/
def evaluateConsistencyOfFollowingRows (g : Grid) (r : Nat) : ℚ :=
  if g.length ≤ r + 1 then 0
  else
    let headerRow := getRow g r
    let slice := lookaheadSlice g r
    if slice.length = 0 then 0
    else
      let dataRows := slice.filterMap id
      let consistentColumns :=
        ((List.range headerRow.length).filter (fun j =>
            (headerRow.getD j .cnull).isNonEmpty && columnIsConsistent dataRows j)).length
      if 0 < headerRow.length then (consistentColumns : ℚ) / (headerRow.length : ℚ)
      else 0

/-- The fixed vocabulary of `commonHeaderTerms`. -/
def commonHeaderTerms : List Str :=
  ["id".toList, "name".toList, "date".toList, "number".toList, "code".toList,
   "description".toList, "amount".toList, "quantity".toList, "price".toList,
   "total".toList, "address".toList, "phone".toList, "email".toList,
   "status".toList, "mobile".toList, "patient".toList, "doctor".toList,
   "bill".toList, "ins".toList, "file".toList, "card".toList, "payer".toList,
   "claim".toList, "sender".toList, "service".toList, "net".toList,
   "clinician".toList, "denial".toList, "submission".toList,
   "remittance".toList, "billno".toList, "fileno".toList, "qty".toList,
   "amt".toList]

/-- The fixed `forbiddenWords` noise vocabulary. -/
def forbiddenWords : List Str :=
  ["garbage".toList, "page".toList, "report".toList, "generated".toList,
   "total".toList, "summary".toList]

def nonEmptyCount (row : Row) : Nat := (row.filter Cell.isNonEmpty).length

/-- `typeof cell === 'string' && isNaN(cell.toString().trim())`. -/
def isTextCell : Cell → Bool
  | .cstr s => !(strIsNumeric s)
  | _ => false

def textCellCount (row : Row) : Nat := (row.filter isTextCell).length

/-- Header-term hits of one cell: one per vocabulary term contained in the
lowercased text. -/
def cellTermMatches : Cell → Nat
  | .cstr s => (commonHeaderTerms.filter (fun t => isSubstring t (strLower s))).length
  | _ => 0

def headerTermMatches (row : Row) : Nat := (row.map cellTermMatches).sum

/-- Does some string cell contain a noise-vocabulary word? -/
def hasForbiddenWords (row : Row) : Bool :=
  row.any (fun c =>
    match c with
    | .cstr s => forbiddenWords.any (fun w => isSubstring w (strLower s))
    | _ => false)

/-- Size of `new Set(row.map(cell => cell?.toString()?.toLowerCase()))`:
every cell is mapped, the empty string stays a value, null/undefined map to
`undefined`. -/
def uniqueCount (row : Row) : Nat := (row.map stringifyLower).dedup.length

/-- The uniqueness feature exactly as computed: Set size over the count of
non-empty cells, with no zero-denominator guard. -/
def uniquenessRatio (row : Row) : JsNum := jsDiv (uniqueCount row) (nonEmptyCount row)

/-- The weighted feature combination of `findHeaderRow` before penalties. -/
def preScore (g : Grid) (r : Nat) (row : Row) : JsNum :=
  let L : ℚ := (row.length : ℚ)
  let fillRate : ℚ := (nonEmptyCount row : ℚ) / L
  let textCellRatio : ℚ := (textCellCount row : ℚ) / L
  let headerTermScore : ℚ := min ((headerTermMatches row : ℚ) / L) 1
  let consistencyScore : ℚ := evaluateConsistencyOfFollowingRows g r
  JsNum.add
    (.fin (fillRate * (1 / 5) + textCellRatio * (1 / 4) + headerTermScore * (1 / 10)
      + consistencyScore * (3 / 10)))
    ((uniquenessRatio row).mulC (3 / 20))

/-- The final combined score after the two multiplicative penalties. -/
def scoreRow (g : Grid) (r : Nat) (row : Row) : JsNum :=
  let s0 := preScore g r row
  let s1 := if hasForbiddenWords row then s0.mulC (3 / 10) else s0
  if nonEmptyCount row = 1 then s1.mulC (1 / 5) else s1

/-- One scan step: a missing or zero-length row is skipped (`continue`). -/
def scoreAt (g : Grid) (i : Nat) : Option (Nat × JsNum) :=
  match g.getD i none with
  | some row => if row.length = 0 then none else some (i, scoreRow g i row)
  | none => none

/-- The `rowScores` list in scan order. -/
def scoresOf (g : Grid) : List (Nat × JsNum) :=
  (List.range (min 10 g.length)).filterMap (scoreAt g)

/-- One comparison step of the stable descending sort: a later entry
replaces the current best only when strictly greater. -/
def pickBetter (b x : Nat × JsNum) : Nat × JsNum :=
  if JsNum.ltb b.2 x.2 then x else b

/-- Head of the stable sort by descending score: the earliest entry of
maximum score. -/
def selectBest : List (Nat × JsNum) → Option (Nat × JsNum)
  | [] => none
  | x :: xs => some (xs.foldl pickBetter x)

/-- `findHeaderRow` of `headerDetection.js` with the default scan bound
`maxRowsToCheck = 10`. -/
def findHeaderRow (g : Grid) : Nat :=
  if g.length = 0 then 0
  else
    match selectBest (scoresOf g) with
    | none => 0
    | some p => if JsNum.ltb p.2 (.fin (1 / 5)) then 0 else p.1

/-- A materialized record: an ordered field list, as a JS object is an
ordered label-to-value mapping (keys are unique in any object the program
builds; theorems assume `Nodup` keys where they rely on it). -/
abbrev Record := List (Str × Cell)

def recordKeys (row : Record) : List Str := row.map Prod.fst

/-- First-match association lookup, JS property read (`undefined` ↦ `none`). -/
def alookup {α : Type} (l : List (Str × α)) (k : Str) : Option α :=
  (l.find? (fun p => decide (p.1 = k))).map Prod.snd

def lookupField (row : Record) (k : Str) : Option Cell := alookup row k

/-- JS object assignment `obj[k] = v`: overwrite in place if the key exists,
otherwise append (insertion-order iteration). -/
def objInsert (r : Record) (k : Str) (v : Cell) : Record :=
  if k ∈ recordKeys r then r.map (fun p => if p.1 = k then (k, v) else p)
  else r ++ [(k, v)]

/-- `Math.round`: round half toward positive infinity. -/
def jsRound (q : ℚ) : ℤ := ⌊q + 1 / 2⌋

/-- `rawAmt.replace(/[^\d.-]/g, '')`. -/
def cleanAmt (s : Str) : Str := s.filter (fun c => isDigitCh c || c = '.' || c = '-')

/-- Amount of one raw cell value in `createRemittanceMapping` (lines 50–62,
given a truthy `amtFieldName`): a number passes through, a string is
stripped then parsed, anything else (boolean, Date, null, absent) is 0. -/
def aggAmountOfCell : Option Cell → ℚ
  | some (.cnum q) => q
  | some (.cstr s) => parseFloatOrZero (cleanAmt s)
  | _ => 0

/-- `parseFloat(v) || 0` on a raw field value, the Reconciler's parse of
`row['Amt']`: a number passes through (for every finite JS number `n`,
`parseFloat(String(n)) = n`, since `String` prints a round-tripping float
literal); a string is parsed with no stripping; booleans, Date objects
(whose `toString` starts with a weekday name) and null/absent give NaN,
hence 0. -/
def reconParse : Option Cell → ℚ
  | some (.cnum q) => q
  | some (.cstr s) => parseFloatOrZero s
  | _ => 0

/-- Per-row amount of `createRemittanceMapping`: 0 when `amtFieldName` is
falsy (absent). -/
def parseRemitAmount (amtField : Option Str) (row : Record) : ℚ :=
  match amtField with
  | none => 0
  | some f => aggAmountOfCell (lookupField row f)

/-- One `remittanceAmountsByID[id].push(amount)` step (the stored arrays are
always truthy, so `!remittanceAmountsByID[id]` is exactly key-absence). -/
def pushAmount (acc : List (Str × List ℚ)) (k : Str) (a : ℚ) : List (Str × List ℚ) :=
  if k ∈ acc.map Prod.fst then
    acc.map (fun p => if p.1 = k then (p.1, p.2 ++ [a]) else p)
  else acc ++ [(k, [a])]

/-- The per-identifier amount lists of `createRemittanceMapping`; keys are
JS property strings (`String(id)`). -/
def remittanceAmountsByID (data : List Record) (idField : Str) (amtField : Option Str) :
    List (Str × List ℚ) :=
  data.foldl (fun acc row =>
    pushAmount acc (stringifyKey (lookupField row idField)) (parseRemitAmount amtField row)) []

/-- The `remittanceIdCounts` accumulator of `createRemittanceMapping`. -/
def remittanceIdCounts (data : List Record) (idField : Str) : List (Str × Nat) :=
  data.foldl (fun acc row =>
    let k := stringifyKey (lookupField row idField)
    if k ∈ acc.map Prod.fst then
      acc.map (fun p => if p.1 = k then (p.1, p.2 + 1) else p)
    else acc ++ [(k, 1)]) []

/-- `remittanceAmtSumByID`: each identifier's amount list reduced by `+`
from 0. -/
def remittanceAmtSumByID (data : List Record) (idField : Str) (amtField : Option Str) :
    List (Str × ℚ) :=
  (remittanceAmountsByID data idField amtField).map
    (fun p => (p.1, p.2.foldl (fun total amt => total + amt) 0))

/-- `findMatchingRecords` of `dataProcessor.js`.  The remittance-ID Set uses
SameValueZero equality, modelled by decidable equality on cell values (the
identifiers in scope are numbers and strings, for which this is exact). -/
def findMatchingRecords (submissionData : List Record) (remittanceIds : List (Option Cell))
    (submissionIdField : Str) : List Record × List Record :=
  submissionData.foldl (fun acc row =>
    if lookupField row submissionIdField ∈ remittanceIds then (acc.1 ++ [row], acc.2)
    else (acc.1, acc.2 ++ [row])) ([], [])

def remitAmtKey : Str := "Remit Amt".toList

def rejectedAmountKey : Str := "Rejected Amount".toList

def amtKeyLower : Str := "amt".toList

def amtKeyExact : Str := "Amt".toList

/-- One step of the result-rebuilding loop of `processMatchedData`: copy
the field (`result[header] = newRow[header]`), and right after the
`amtIndex` position assign the two new fields. -/
def enrichStep (row : Record) (amtIndex : Option Nat) (vRemit vRejected : Cell)
    (acc : Record) (p : Nat × Str) : Record :=
  let acc1 := objInsert acc p.2 ((lookupField row p.2).getD .cnull)
  if amtIndex = some p.1 then
    objInsert (objInsert acc1 remitAmtKey vRemit) rejectedAmountKey vRejected
  else acc1

/-- Enrichment of one matched row in `processMatchedData`: find the first
header equal to `amt` case-insensitively, read the row's ID and the summed
remit amount (`|| 0`), parse the original amount from the case-sensitive
literal key `Amt`, round the difference to 2 decimals, and rebuild the
object inserting the two new fields right after the `amt`-position. -/
def enrichRow (submissionIdField : Str) (sums : List (Str × ℚ)) (row : Record) : Record :=
  let headers := recordKeys row
  let amtIndex : Option Nat := headers.findIdx? (fun h => decide (strLower h = amtKeyLower))
  let rowID := lookupField row submissionIdField
  let remitAmtSum : ℚ := (alookup sums (stringifyKey rowID)).getD 0
  let originalAmt : ℚ := reconParse (lookupField row amtKeyExact)
  let rejectedAmount : ℚ := ((jsRound ((originalAmt - remitAmtSum) * 100) : ℚ)) / 100
  headers.enum.foldl
    (enrichStep row amtIndex (.cnum remitAmtSum) (.cnum rejectedAmount)) []

/-- `processMatchedData` of `dataProcessor.js`. -/
def processMatchedData (matchedRows : List Record) (submissionIdField : Str)
    (sums : List (Str × ℚ)) : List Record :=
  matchedRows.map (enrichRow submissionIdField sums)

/-- `identifyColumns` for the remittance role (first matching header, else
first header for the ID). -/
def identifyColumnsRemittance (headers : List Str) : Option Str × Option Str :=
  let amtFieldName := headers.find? (fun h => decide (strLower h = amtKeyLower) ||
    decide (strLower h = "amount".toList) || isSubstring ("amount".toList) (strLower h))
  let idField := (headers.find? (fun h => decide (strLower h = "id".toList) ||
    decide (strLower h = "billno".toList))).orElse (fun _ => headers.head?)
  (amtFieldName, idField)

/-- Formalisation of the specification's words for the uniqueness feature:
distinct lowercased stringified NON-EMPTY values over the non-empty count,
0 when there is no non-empty cell. -/
def uniquenessRatioSpec (row : Row) : ℚ :=
  if nonEmptyCount row = 0 then 0
  else (((row.filter Cell.isNonEmpty).map stringifyLower).dedup.length : ℚ) /
    (nonEmptyCount row : ℚ)

/-- Formalisation of the specification's words for the lookahead window:
rows `r+1 .. r+min(4, rowCount-r-1)`. -/
def lookaheadSliceSpec (g : Grid) (r : Nat) : List (Option Row) :=
  (g.drop (r + 1)).take (min 4 (g.length - r - 1))

/-- Formalisation of the specification's words for the consistency score:
consistent columns over the columns with a non-empty header cell and at
least one non-empty value in the (specification's) lookahead window. -/
def consistencyScoreSpec (g : Grid) (r : Nat) : ℚ :=
  let headerRow := getRow g r
  let dataRows := (lookaheadSliceSpec g r).filterMap id
  let eligible := (List.range headerRow.length).filter (fun j =>
      (headerRow.getD j .cnull).isNonEmpty && decide (0 < (columnValid dataRows j).length))
  let consistent := eligible.filter (fun j => decide ((columnTypes dataRows j).length ≤ 2))
  if eligible.length = 0 then 0 else (consistent.length : ℚ) / (eligible.length : ℚ)

/-- Inputs on which the stripping of the Aggregator's parse is inert: any
non-text value, or text over the alphabet kept by `cleanAmt`. -/
def plainParseInput : Option Cell → Bool
  | some (.cstr s) => s.all (fun c => isDigitCh c || c = '.' || c = '-')
  | _ => true

/-- Grid exhibiting the consistency-score denominator: header `["a", ""]`,
five following one-cell rows (so the code's window and the spec's window
coincide: rows 1–4). -/
def gridC4 : Grid :=
  [some [Cell.cstr ['a'], Cell.cstr []], some [Cell.cstr ['1']], some [Cell.cstr ['1']],
   some [Cell.cstr ['1']], some [Cell.cstr ['1']], some [Cell.cstr ['1']]]

/-- Two-row grid whose row 0 holds a noise word yet is returned by
`findHeaderRow` while row 1 scores strictly higher (both scores fall below
the 0.2 default threshold). -/
def gridNoise : Grid :=
  [some [Cell.cstr "garbage".toList, Cell.cnull, Cell.cnull, Cell.cnull],
   some [Cell.cstr ['x'], Cell.cnull]]

/-- A clean header grid: row 0 is `["claim id", "name"]` over one data row. -/
def gridClean : Grid :=
  [some [Cell.cstr "claim id".toList, Cell.cstr "name".toList],
   some [Cell.cstr "x1".toList, Cell.cstr "bob".toList]]

/-- The specification's aggregation example: identifier `A` on three rows
with amounts `10`, `20.5` and `"30.25 USD"`. -/
def dataC7 : List Record :=
  [[("Id".toList, Cell.cstr ['A']), ("Amt".toList, Cell.cnum 10)],
   [("Id".toList, Cell.cstr ['A']), ("Amt".toList, Cell.cnum (41 / 2))],
   [("Id".toList, Cell.cstr ['A']), ("Amt".toList, Cell.cstr "30.25 USD".toList)]]

/-- Two source rows whose identifiers are the number `7` and the text
`"7"`: distinct values that coerce to the same JS property key. -/
def dataMix : List Record :=
  [[("Id".toList, Cell.cnum 7), ("Amt".toList, Cell.cnum 1)],
   [("Id".toList, Cell.cstr ['7']), ("Amt".toList, Cell.cnum 2)]]

/-- The specification's enrichment example record `{Id: "A", Amt: 100}`. -/
def rowC9 : Record := [("Id".toList, Cell.cstr ['A']), ("Amt".toList, Cell.cnum 100)]

/-- A record that already carries a `Remit Amt` field before its `Amt`
field. -/
def rowC9bad : Record := [(remitAmtKey, Cell.cnum 1), ("Amt".toList, Cell.cnum 100)]

theorem JsNum.ltb_irrefl (a : JsNum) : a.ltb a = false := by
  cases a <;> simp [JsNum.ltb]

theorem JsNum.ltb_trans {a b c : JsNum} (h1 : a.ltb b = true) (h2 : b.ltb c = true) :
    a.ltb c = true := by
  cases a <;> cases b <;> cases c <;>
    simp_all [JsNum.ltb]
  linarith

theorem JsNum.ltb_of_ltb_of_not_ltb {a b c : JsNum} (h1 : a.ltb b = true)
    (h2 : c.ltb b = false) : a.ltb c = true := by
  cases a <;> cases b <;> cases c <;>
    simp_all [JsNum.ltb]
  linarith

theorem JsNum.ltb_of_not_ltb_of_ltb {a b c : JsNum} (h1 : b.ltb a = false)
    (h2 : b.ltb c = true) : a.ltb c = true := by
  cases a <;> cases b <;> cases c <;>
    simp_all [JsNum.ltb]
  linarith

theorem foldl_pickBetter_spec (l : List (Nat × JsNum)) :
    ∀ b : Nat × JsNum, (b :: l).Pairwise (fun p q => p.1 < q.1) →
      (l.foldl pickBetter b = b ∨ l.foldl pickBetter b ∈ l) ∧
      (∀ p ∈ b :: l, (l.foldl pickBetter b).2.ltb p.2 = false) ∧
      (∀ p ∈ b :: l, p.1 < (l.foldl pickBetter b).1 →
        p.2.ltb (l.foldl pickBetter b).2 = true) := by
  induction l with
  | nil =>
    intro b _
    refine ⟨Or.inl rfl, ?_, ?_⟩
    · intro p hp
      rcases List.mem_singleton.mp hp with rfl
      exact JsNum.ltb_irrefl _
    · intro p hp hlt
      rcases List.mem_singleton.mp hp with rfl
      simp at hlt
  | cons x xs ih =>
    intro b hsort
    rw [List.pairwise_cons] at hsort
    obtain ⟨hb, hsx⟩ := hsort
    have hbx : b.1 < x.1 := hb x (List.mem_cons_self x xs)
    have hsort' : (pickBetter b x :: xs).Pairwise (fun p q => p.1 < q.1) := by
      rw [List.pairwise_cons]
      rw [List.pairwise_cons] at hsx
      refine ⟨?_, hsx.2⟩
      intro q hq
      unfold pickBetter
      by_cases h : JsNum.ltb b.2 x.2 = true
      · simp [h]
        exact hsx.1 q hq
      · simp [h]
        exact hb q (List.mem_cons_of_mem x hq)
    obtain ⟨hmem, hmax, hfirst⟩ := ih (pickBetter b x) hsort'
    have hfold : (x :: xs).foldl pickBetter b = xs.foldl pickBetter (pickBetter b x) := rfl
    set r := xs.foldl pickBetter (pickBetter b x) with hr
    rw [hfold]
    by_cases hbxlt : JsNum.ltb b.2 x.2 = true
    · have hpb : pickBetter b x = x := by simp [pickBetter, hbxlt]
      rw [hpb] at hmem hmax hfirst
      have hrx : r.2.ltb x.2 = false := hmax x (List.mem_cons_self x xs)
      refine ⟨?_, ?_, ?_⟩
      · rcases hmem with h | h
        · exact Or.inr (by rw [h]; exact List.mem_cons_self x xs)
        · exact Or.inr (List.mem_cons_of_mem x h)
      · intro p hp
        rcases List.mem_cons.mp hp with hpe | hp'
        · rw [hpe]
          cases hrp : r.2.ltb b.2 with
          | false => rfl
          | true =>
            have h2 := JsNum.ltb_trans hrp hbxlt
            rw [h2] at hrx
            exact absurd hrx (by simp)
        · exact hmax p hp'
      · intro p hp hplt
        rcases List.mem_cons.mp hp with hpe | hp'
        · rw [hpe]
          exact JsNum.ltb_of_ltb_of_not_ltb hbxlt hrx
        · exact hfirst p hp' hplt
    · have hpb : pickBetter b x = b := by simp [pickBetter, hbxlt]
      rw [hpb] at hmem hmax hfirst
      have hbxle : JsNum.ltb b.2 x.2 = false := by
        cases h : JsNum.ltb b.2 x.2 with
        | false => rfl
        | true => exact absurd h hbxlt
      refine ⟨?_, ?_, ?_⟩
      · rcases hmem with h | h
        · exact Or.inl h
        · exact Or.inr (List.mem_cons_of_mem x h)
      · intro p hp
        rcases List.mem_cons.mp hp with hpe | hp'
        · rw [hpe]
          exact hmax b (List.mem_cons_self b xs)
        · rcases List.mem_cons.mp hp' with hpe | hp''
          · rw [hpe]
            cases hrp : r.2.ltb x.2 with
            | false => rfl
            | true =>
              have h2 := JsNum.ltb_of_ltb_of_not_ltb hrp hbxle
              have hrb := hmax b (List.mem_cons_self b xs)
              rw [h2] at hrb
              exact absurd hrb (by simp)
          · exact hmax p (List.mem_cons_of_mem b hp'')
      · intro p hp hplt
        rcases List.mem_cons.mp hp with hpe | hp'
        · rw [hpe] at hplt ⊢
          exact hfirst b (List.mem_cons_self b xs) hplt
        · rcases List.mem_cons.mp hp' with hpe | hp''
          · rw [hpe] at hplt ⊢
            rcases hmem with hrb | hrxs
            · rw [hrb] at hplt
              omega
            · have hbr : b.1 < r.1 := by
                rw [List.pairwise_cons] at hsx
                have h3 := hsx.1 r hrxs
                omega
              have hbrlt : b.2.ltb r.2 = true := hfirst b (List.mem_cons_self b xs) hbr
              exact JsNum.ltb_of_not_ltb_of_ltb hbxle hbrlt
          · exact hfirst p (List.mem_cons_of_mem b hp'') hplt

theorem scoreAt_eq_some {g : Grid} {i : Nat} {p : Nat × JsNum} (h : scoreAt g i = some p) :
    p.1 = i ∧ ∃ row : Row, g.getD i none = some row ∧ row.length ≠ 0 ∧
      p.2 = scoreRow g i row := by
  unfold scoreAt at h
  cases hrow : g.getD i none with
  | none => rw [hrow] at h; exact absurd h (by simp)
  | some row =>
    rw [hrow] at h
    by_cases hlen : row.length = 0
    · simp [hlen] at h
    · simp only [hlen, if_false, if_neg] at h
      obtain rfl := (Option.some_inj.mp h).symm
      exact ⟨rfl, row, rfl, hlen, rfl⟩

theorem mem_scoresOf {g : Grid} {p : Nat × JsNum} (h : p ∈ scoresOf g) :
    p.1 < min 10 g.length ∧ ∃ row : Row, g.getD p.1 none = some row ∧ row.length ≠ 0 ∧
      p.2 = scoreRow g p.1 row := by
  unfold scoresOf at h
  obtain ⟨i, hi, hsc⟩ := List.mem_filterMap.mp h
  obtain ⟨hidx, hrest⟩ := scoreAt_eq_some hsc
  subst hidx
  exact ⟨List.mem_range.mp hi, hrest⟩

theorem scoresOf_complete {g : Grid} {i : Nat} {row : Row} (hi : i < min 10 g.length)
    (hrow : g.getD i none = some row) (hlen : row.length ≠ 0) :
    (i, scoreRow g i row) ∈ scoresOf g := by
  unfold scoresOf
  refine List.mem_filterMap.mpr ⟨i, List.mem_range.mpr hi, ?_⟩
  unfold scoreAt
  rw [hrow]
  simp [hlen]

theorem scoresOf_sorted (g : Grid) : (scoresOf g).Pairwise (fun p q => p.1 < q.1) := by
  unfold scoresOf
  have hr : (List.range (min 10 g.length)).Pairwise (· < ·) := List.pairwise_lt_range _
  refine List.Pairwise.filterMap (scoreAt g) ?_ hr
  intro a b hab p hp q hq
  obtain ⟨hpa, _⟩ := scoreAt_eq_some hp
  obtain ⟨hqb, _⟩ := scoreAt_eq_some hq
  rw [hpa, hqb]
  exact hab

theorem selectBest_spec {g : Grid} {q : Nat × JsNum}
    (h : selectBest (scoresOf g) = some q) :
    q ∈ scoresOf g ∧ (∀ p ∈ scoresOf g, q.2.ltb p.2 = false) ∧
      (∀ p ∈ scoresOf g, p.1 < q.1 → p.2.ltb q.2 = true) := by
  cases hsc : scoresOf g with
  | nil => rw [hsc] at h; exact absurd h (by simp [selectBest])
  | cons x xs =>
    rw [hsc] at h
    unfold selectBest at h
    obtain rfl := (Option.some_inj.mp h).symm
    have hsort : (x :: xs).Pairwise (fun p q => p.1 < q.1) := by
      rw [← hsc]; exact scoresOf_sorted g
    obtain ⟨hmem, hmax, hfirst⟩ := foldl_pickBetter_spec xs x hsort
    refine ⟨?_, hmax, hfirst⟩
    rcases hmem with h1 | h1
    · rw [h1]; exact List.mem_cons_self x xs
    · exact List.mem_cons_of_mem x h1

theorem findHeaderRow_cases (g : Grid) :
    (selectBest (scoresOf g) = none ∧ findHeaderRow g = 0) ∨
      (∃ q : Nat × JsNum, selectBest (scoresOf g) = some q ∧
        ((q.2.ltb (.fin (1 / 5)) = true ∧ findHeaderRow g = 0) ∨
         (q.2.ltb (.fin (1 / 5)) = false ∧ findHeaderRow g = q.1))) := by
  unfold findHeaderRow
  by_cases hg : g.length = 0
  · rw [if_pos hg]
    left
    constructor
    · have : scoresOf g = [] := by
        unfold scoresOf
        rw [hg]
        rfl
      rw [this]
      rfl
    · rfl
  · rw [if_neg hg]
    cases hsel : selectBest (scoresOf g) with
    | none => exact Or.inl ⟨rfl, rfl⟩
    | some q =>
      refine Or.inr ⟨q, rfl, ?_⟩
      cases hlt : q.2.ltb (.fin (1 / 5)) with
      | true =>
        refine Or.inl ⟨rfl, ?_⟩
        show (if q.2.ltb (JsNum.fin (1 / 5)) = true then 0 else q.1) = 0
        rw [if_pos hlt]
      | false =>
        refine Or.inr ⟨rfl, ?_⟩
        show (if q.2.ltb (JsNum.fin (1 / 5)) = true then 0 else q.1) = q.1
        rw [if_neg (by rw [hlt]; simp)]

/-- C1 (counterexample): the two amount parses are not identical.  At the
text cell `"$30.25"` the Aggregator's parse (strip every character outside
digits/`.`/`-`, then parse) yields 30.25, while the Reconciler's
`originalAmt` parse (`parseFloat` with no stripping) yields 0. -/
theorem parse_call_sites_differ_on_dollar_amount :
    aggAmountOfCell (some (.cstr ("$30.25".toList))) = 121 / 4 ∧
      reconParse (some (.cstr ("$30.25".toList))) = 0 := by
  constructor
  · simp +decide [aggAmountOfCell, cleanAmt, parseFloatOrZero, parseFloatCore, takeDigits,
      parseSign, isDigitCh, digitsVal, isJsSpace, parseExp]
    norm_num
  · simp +decide [reconParse, parseFloatOrZero, parseFloatCore, takeDigits,
      parseSign, isDigitCh, digitsVal, isJsSpace, parseExp]

/-- C1 (amended): the Aggregator's parse and the Reconciler's `originalAmt`
parse agree on every cell value except text containing characters outside
digits, `.` and `-`: numbers pass through both unchanged, null, boolean,
Date and absent values give 0 in both, and on restricted-alphabet text the
stripping is inert, leaving the same `parseFloat`. -/
theorem parse_call_sites_agree_on_plain (x : Option Cell)
    (h : plainParseInput x = true) : aggAmountOfCell x = reconParse x := by
  match x with
  | none => rfl
  | some .cnull => rfl
  | some (.cnum q) => rfl
  | some (.cbool b) => rfl
  | some (.cdate s) => rfl
  | some (.cstr s) =>
    show parseFloatOrZero (cleanAmt s) = parseFloatOrZero s
    have hclean : cleanAmt s = s := by
      unfold cleanAmt
      apply List.filter_eq_self.mpr
      intro c hc
      exact (List.all_eq_true.mp h) c hc
    rw [hclean]

theorem parse_call_sites_agree_on_plain_witness :
    plainParseInput (some (.cstr ("30.25".toList))) = true ∧
      aggAmountOfCell (some (.cstr ("30.25".toList))) =
        reconParse (some (.cstr ("30.25".toList))) :=
  ⟨by decide, parse_call_sites_agree_on_plain _ (by decide)⟩

/-- C2 (counterexample): the uniqueness feature is not the claimed
guarded ratio over non-empty values.  For the one-cell row `['']` the code
divides the Set size 1 by the non-empty count 0, giving `+Infinity` where
the claim asserts 0; and for `['', 'a']` the Set also counts the empty
cell's value, giving 2/1 where the claim's formula gives 1/1. -/
theorem uniquenessRatio_differs_from_spec :
    uniquenessRatio [Cell.cstr []] = JsNum.inf ∧
      uniquenessRatioSpec [Cell.cstr []] = 0 ∧
      uniquenessRatio [Cell.cstr [], Cell.cstr ['a']] = JsNum.fin 2 ∧
      uniquenessRatioSpec [Cell.cstr [], Cell.cstr ['a']] = 1 := by
  refine ⟨by decide, by decide, ?_, ?_⟩
  · simp +decide [uniquenessRatio, jsDiv, uniqueCount, nonEmptyCount]
  · simp +decide [uniquenessRatioSpec, nonEmptyCount]

/-- C2 (amended): for every row with at least one non-empty cell,
`uniquenessRatio` equals the number of distinct lowercased stringified
values over ALL cells of the row (null cells stringifying to `undefined`
and empty text to the empty string) divided by the count of non-empty
cells; when the row has no non-empty cell the division is unguarded and
the feature is `+Infinity`, never 0. -/
theorem uniquenessRatio_characterization (row : Row) :
    (0 < nonEmptyCount row →
      uniquenessRatio row =
        JsNum.fin (((row.map stringifyLower).toFinset.card : ℚ) / (nonEmptyCount row : ℚ))) ∧
    (nonEmptyCount row = 0 → uniquenessRatio row = JsNum.inf) := by
  constructor
  · intro h
    unfold uniquenessRatio jsDiv uniqueCount
    rw [if_neg (by omega), List.card_toFinset]
  · intro h
    unfold uniquenessRatio jsDiv
    rw [if_pos h]

theorem uniquenessRatio_characterization_witness :
    0 < nonEmptyCount [Cell.cstr ['a'], Cell.cstr []] ∧
      uniquenessRatio [Cell.cstr ['a'], Cell.cstr []] =
        JsNum.fin ((([Cell.cstr ['a'], Cell.cstr []].map stringifyLower).toFinset.card : ℚ) /
          (nonEmptyCount [Cell.cstr ['a'], Cell.cstr []] : ℚ)) :=
  ⟨by decide, (uniquenessRatio_characterization _).1 (by decide)⟩

/-- C3 (counterexample): the lookahead window is not
`r+1 .. r+min(4, rowCount-r-1)`.  On a 3-row grid with candidate row 0 the
code's slice keeps only row 1, while the claimed window also contains the
grid's last row 2. -/
theorem lookahead_window_drops_last_row :
    lookaheadSlice [some [Cell.cstr ['x']], some [Cell.cstr ['y']], some [Cell.cstr ['z']]] 0 =
      [some [Cell.cstr ['y']]] ∧
      lookaheadSliceSpec [some [Cell.cstr ['x']], some [Cell.cstr ['y']],
        some [Cell.cstr ['z']]] 0 =
        [some [Cell.cstr ['y']], some [Cell.cstr ['z']]] := by
  decide

/-- C3 (amended): the consistency-scoring lookahead window consists exactly
of the rows `r+1` through `r+min(4, rowCount-r-2)`: when at least five rows
follow `r` these are the next four rows, and otherwise all following rows
EXCEPT the grid's last row, which is never part of the window. -/
theorem lookaheadSlice_characterization (g : Grid) (r : Nat) :
    lookaheadSlice g r = (g.drop (r + 1)).take (min 4 (g.length - r - 2)) := by
  unfold lookaheadSlice
  congr 1
  omega

theorem length_filter_partition {α : Type} (p : α → Bool) (l : List α) :
    (l.filter p).length + (l.filter (fun a => !(p a))).length = l.length := by
  induction l with
  | nil => rfl
  | cons a rest ih =>
    by_cases h : p a = true
    · simp only [List.filter, h]
      simp only [Bool.not_true, List.length_cons]
      omega
    · have h' : p a = false := by
        cases hpa : p a with
        | false => rfl
        | true => exact absurd hpa h
      simp only [List.filter, h', Bool.not_false, List.length_cons]
      omega

theorem findMatchingRecords_foldl (ids : List (Option Cell)) (f : Str) (subs : List Record) :
    ∀ m u : List Record,
      subs.foldl (fun acc row =>
          if lookupField row f ∈ ids then (acc.1 ++ [row], acc.2)
          else (acc.1, acc.2 ++ [row])) (m, u) =
        (m ++ subs.filter (fun row => decide (lookupField row f ∈ ids)),
         u ++ subs.filter (fun row => !decide (lookupField row f ∈ ids))) := by
  induction subs with
  | nil => intro m u; simp
  | cons row rest ih =>
    intro m u
    by_cases h : lookupField row f ∈ ids
    · simp only [List.foldl_cons, if_pos h, ih, List.filter]
      simp [h]
    · simp only [List.foldl_cons, if_neg h, ih, List.filter]
      simp [h]

/-- C8: `findMatchingRecords` partitions the target records: `matchedRows`
is exactly the in-order filter of the records whose identifier value is in
the remittance-ID set, `unmatchedRows` the in-order filter of the rest, the
lengths add up to the input length, every input record lands in exactly one
side, and membership is type-sensitive: a text identifier `"7"` does not
match the number `7` and lands in `unmatchedRows`. -/
theorem findMatchingRecords_partition (subs : List Record) (ids : List (Option Cell)) (f : Str) :
    (findMatchingRecords subs ids f).1 =
        subs.filter (fun row => decide (lookupField row f ∈ ids)) ∧
      (findMatchingRecords subs ids f).2 =
        subs.filter (fun row => !decide (lookupField row f ∈ ids)) ∧
      (findMatchingRecords subs ids f).1.length + (findMatchingRecords subs ids f).2.length =
        subs.length ∧
      (∀ row ∈ subs,
        (row ∈ (findMatchingRecords subs ids f).1 ∧ row ∉ (findMatchingRecords subs ids f).2) ∨
        (row ∈ (findMatchingRecords subs ids f).2 ∧ row ∉ (findMatchingRecords subs ids f).1)) ∧
      findMatchingRecords [[("Claim ID".toList, Cell.cstr ['7'])]] [some (Cell.cnum 7)]
        ("Claim ID".toList) = ([], [[("Claim ID".toList, Cell.cstr ['7'])]]) := by
  have hfold := findMatchingRecords_foldl ids f subs [] []
  have h1 : (findMatchingRecords subs ids f).1 =
      subs.filter (fun row => decide (lookupField row f ∈ ids)) := by
    unfold findMatchingRecords
    rw [hfold]
    simp
  have h2 : (findMatchingRecords subs ids f).2 =
      subs.filter (fun row => !decide (lookupField row f ∈ ids)) := by
    unfold findMatchingRecords
    rw [hfold]
    simp
  refine ⟨h1, h2, ?_, ?_, ?_⟩
  · rw [h1, h2]
    exact length_filter_partition _ subs
  · intro row hrow
    by_cases h : lookupField row f ∈ ids
    · left
      constructor
      · rw [h1]
        exact List.mem_filter.mpr ⟨hrow, by simp [h]⟩
      · rw [h2]
        intro hc
        have := (List.mem_filter.mp hc).2
        simp [h] at this
    · right
      constructor
      · rw [h2]
        exact List.mem_filter.mpr ⟨hrow, by simp [h]⟩
      · rw [h1]
        intro hc
        have := (List.mem_filter.mp hc).2
        simp [h] at this
  · decide

/-- C10: the header locator's result always lies inside the scan window:
it is less than `max 1 (min 10 rowCount)`, it is 0 on the empty grid, and
it is 0 whenever every scanned row is absent or has zero columns. -/
theorem findHeaderRow_within_window (g : Grid) :
    findHeaderRow g < max 1 (min 10 g.length) ∧
      (g.length = 0 → findHeaderRow g = 0) ∧
      ((∀ i, i < min 10 g.length → g.getD i none = none ∨ g.getD i none = some []) →
        findHeaderRow g = 0) := by
  rcases findHeaderRow_cases g with ⟨hsel, hfhr⟩ | ⟨q, hsel, hq⟩
  · exact ⟨by rw [hfhr]; omega, fun _ => hfhr, fun _ => hfhr⟩
  · have hmem := (selectBest_spec hsel).1
    have hidx := (mem_scoresOf hmem).1
    rcases hq with ⟨_, hfhr⟩ | ⟨_, hfhr⟩
    · refine ⟨by rw [hfhr]; omega, fun _ => hfhr, fun _ => hfhr⟩
    · refine ⟨by rw [hfhr]; omega, ?_, ?_⟩
      · intro hg
        rw [hg] at hidx
        simp at hidx
      · intro hall
        have hnil : scoresOf g = [] := by
          unfold scoresOf
          rw [List.filterMap_eq_nil_iff]
          intro i hi
          rcases hall i (List.mem_range.mp hi) with h | h
          · unfold scoreAt
            rw [h]
          · unfold scoreAt
            rw [h]
            simp
        rw [hnil] at hmem
        exact absurd hmem (by simp)

theorem findHeaderRow_within_window_witness :
    ([] : Grid).length = 0 ∧ findHeaderRow [] = 0 ∧
      (∀ i, i < min 10 ([some [], none] : Grid).length →
        ([some [], none] : Grid).getD i none = none ∨
        ([some [], none] : Grid).getD i none = some []) ∧
      findHeaderRow [some [], none] = 0 :=
  ⟨rfl, (findHeaderRow_within_window []).2.1 rfl, by decide,
    (findHeaderRow_within_window [some [], none]).2.2 (by decide)⟩

/-- C4 (counterexample): the consistency score's denominator is not the
count of eligible columns.  On `gridC4` (header `["a", ""]`, four one-cell
numeric-text data rows in the window) the only eligible column is
consistent, so the claim's formula gives 1, but the code divides by the
header row's total column count 2 and returns 1/2; the empty-header column
does contribute to the code's denominator. -/
theorem consistencyScore_differs_from_spec :
    evaluateConsistencyOfFollowingRows gridC4 0 = 1 / 2 ∧
      consistencyScoreSpec gridC4 0 = 1 := by
  constructor
  · simp +decide [evaluateConsistencyOfFollowingRows, gridC4, getRow, lookaheadSlice,
      columnIsConsistent, columnValid, columnCells, columnTypes, typeCatOf, isDateLike,
      strIsNumeric, trimWs, isJsSpace, parseSign, takeDigits, parseExp, isDigitCh,
      Cell.isNonEmpty, List.range_succ]
  · simp +decide [consistencyScoreSpec, gridC4, getRow, lookaheadSliceSpec,
      columnIsConsistent, columnValid, columnCells, columnTypes, typeCatOf, isDateLike,
      strIsNumeric, trimWs, isJsSpace, parseSign, takeDigits, parseExp, isDigitCh,
      Cell.isNonEmpty, List.range_succ]

/-- C4 (amended): whenever row `r` is scored with a non-empty lookahead
window, `consistencyScore` equals the number of columns that have a
non-empty header cell in `r`, at least one non-empty value in the window,
and at most two distinct value-type categories, divided by the TOTAL column
count of row `r`; columns with an empty header cell are excluded from the
numerator only, and columns with no value in the window still count in the
denominator. -/
theorem consistencyScore_denominator_is_row_length (g : Grid) (r : Nat)
    (hr : r + 2 ≤ g.length) (hw : lookaheadSlice g r ≠ []) (hrow : getRow g r ≠ []) :
    evaluateConsistencyOfFollowingRows g r =
      (((List.range (getRow g r).length).countP (fun j =>
          ((getRow g r).getD j .cnull).isNonEmpty &&
            columnIsConsistent ((lookaheadSlice g r).filterMap id) j) : ℚ)) /
        ((getRow g r).length : ℚ) := by
  simp only [evaluateConsistencyOfFollowingRows]
  rw [if_neg (by omega : ¬ g.length ≤ r + 1)]
  rw [if_neg (fun hlen => hw (List.length_eq_zero.mp hlen))]
  rw [if_pos (List.length_pos.mpr hrow)]
  rw [List.countP_eq_length_filter]

theorem consistencyScore_denominator_witness :
    0 + 2 ≤ gridC4.length ∧ lookaheadSlice gridC4 0 ≠ [] ∧ getRow gridC4 0 ≠ [] ∧
      evaluateConsistencyOfFollowingRows gridC4 0 =
        (((List.range (getRow gridC4 0).length).countP (fun j =>
            ((getRow gridC4 0).getD j .cnull).isNonEmpty &&
              columnIsConsistent ((lookaheadSlice gridC4 0).filterMap id) j) : ℚ)) /
          ((getRow gridC4 0).length : ℚ) :=
  ⟨by decide, by decide, by decide,
    consistencyScore_denominator_is_row_length gridC4 0 (by decide) (by decide) (by decide)⟩

/-- C5: header-row selection.  If the grid is empty the locator returns 0;
if no row could be scored it returns 0; and whenever the stable descending
sort yields a best entry `q`, that entry is a scored row of maximal score
(no scored row beats it, every earlier scored row is strictly below it, so
ties go to the lowest index), and the locator returns its index when its
score is at least 0.2 and 0 otherwise. -/
theorem findHeaderRow_selection (g : Grid) :
    (g.length = 0 → findHeaderRow g = 0) ∧
      (∀ q : Nat × JsNum, selectBest (scoresOf g) = some q →
        q ∈ scoresOf g ∧
          (∀ p ∈ scoresOf g, q.2.ltb p.2 = false) ∧
          (∀ p ∈ scoresOf g, p.1 < q.1 → p.2.ltb q.2 = true) ∧
          (q.2.ltb (JsNum.fin (1 / 5)) = false → findHeaderRow g = q.1) ∧
          (q.2.ltb (JsNum.fin (1 / 5)) = true → findHeaderRow g = 0)) ∧
      (selectBest (scoresOf g) = none → findHeaderRow g = 0) := by
  refine ⟨?_, ?_, ?_⟩
  · intro hg
    unfold findHeaderRow
    rw [if_pos hg]
  · intro q hsel
    obtain ⟨hmem, hmax, hfirst⟩ := selectBest_spec hsel
    refine ⟨hmem, hmax, hfirst, ?_, ?_⟩
    · intro hge
      rcases findHeaderRow_cases g with ⟨hn, _⟩ | ⟨q2, hs2, hq2⟩
      · rw [hn] at hsel
        exact absurd hsel (by simp)
      · rw [hs2] at hsel
        obtain rfl := Option.some_inj.mp hsel
        rcases hq2 with ⟨hlt, _⟩ | ⟨_, hf⟩
        · rw [hge] at hlt
          exact absurd hlt (by simp)
        · exact hf
    · intro hlow
      rcases findHeaderRow_cases g with ⟨hn, _⟩ | ⟨q2, hs2, hq2⟩
      · rw [hn] at hsel
        exact absurd hsel (by simp)
      · rw [hs2] at hsel
        obtain rfl := Option.some_inj.mp hsel
        rcases hq2 with ⟨_, hf⟩ | ⟨hge, _⟩
        · exact hf
        · rw [hlow] at hge
          exact absurd hge (by simp)
  · intro hnone
    rcases findHeaderRow_cases g with ⟨_, hf⟩ | ⟨q2, hs2, _⟩
    · exact hf
    · rw [hs2] at hnone
      exact absurd hnone (by simp)

theorem scoresOf_gridClean :
    scoresOf gridClean = [(0, JsNum.fin (7 / 10)), (1, JsNum.fin (3 / 5))] := by
  simp +decide [scoresOf, scoreAt, scoreRow, preScore, uniquenessRatio, uniqueCount,
    nonEmptyCount, textCellCount, isTextCell, headerTermMatches, cellTermMatches,
    commonHeaderTerms, hasForbiddenWords, forbiddenWords,
    evaluateConsistencyOfFollowingRows, lookaheadSlice, getRow, columnIsConsistent,
    columnValid, columnCells, columnTypes, typeCatOf, isDateLike, strIsNumeric, trimWs,
    isJsSpace, parseSign, takeDigits, parseExp, isDigitCh, Cell.isNonEmpty, stringifyLower,
    strLower, isSubstring, jsDiv, JsNum.add, JsNum.mulC, List.range_succ, gridClean]
  norm_num

theorem selectBest_gridClean :
    selectBest (scoresOf gridClean) = some (0, JsNum.fin (7 / 10)) := by
  rw [scoresOf_gridClean]
  simp only [selectBest, List.foldl_cons, List.foldl_nil, pickBetter, JsNum.ltb]
  norm_num

theorem gridClean_above_threshold :
    (JsNum.fin (7 / 10)).ltb (JsNum.fin (1 / 5)) = false := by
  simp only [JsNum.ltb]
  norm_num

theorem findHeaderRow_selection_witness :
    selectBest (scoresOf gridClean) = some (0, JsNum.fin (7 / 10)) ∧
      (0, JsNum.fin (7 / 10)) ∈ scoresOf gridClean ∧ findHeaderRow gridClean = 0 :=
  ⟨selectBest_gridClean,
    ((findHeaderRow_selection gridClean).2.1 _ selectBest_gridClean).1,
    ((findHeaderRow_selection gridClean).2.1 _ selectBest_gridClean).2.2.2.1
      gridClean_above_threshold⟩

theorem evalConsistency_nonneg (g : Grid) (r : Nat) :
    0 ≤ evaluateConsistencyOfFollowingRows g r := by
  simp only [evaluateConsistencyOfFollowingRows]
  split
  · norm_num
  · split
    · norm_num
    · split
      · positivity
      · norm_num

theorem preScore_nonneg (g : Grid) (i : Nat) (row : Row) :
    (JsNum.fin 0).leb (preScore g i row) = true := by
  unfold preScore
  cases h : uniquenessRatio row with
  | inf => simp [JsNum.add, JsNum.mulC, JsNum.leb]
  | fin u =>
    have hu : 0 ≤ u := by
      unfold uniquenessRatio jsDiv at h
      split at h
      · exact absurd h (by simp)
      · obtain rfl := (JsNum.fin.injEq _ _).mp h
        positivity
    simp only [JsNum.add, JsNum.mulC, JsNum.leb, decide_eq_true_eq]
    have h1 : (0 : ℚ) ≤ (nonEmptyCount row : ℚ) / (row.length : ℚ) := by positivity
    have h2 : (0 : ℚ) ≤ (textCellCount row : ℚ) / (row.length : ℚ) := by positivity
    have h3 : (0 : ℚ) ≤ min ((headerTermMatches row : ℚ) / (row.length : ℚ)) 1 :=
      le_min (by positivity) (by norm_num)
    have h4 := evalConsistency_nonneg g i
    nlinarith

theorem JsNum.leb_refl (a : JsNum) : a.leb a = true := by
  cases a <;> simp [JsNum.leb]

/-- C6 (counterexample): a noise-word row can be "selected" even though a
higher-scoring row exists.  In `gridNoise` row 0 contains the noise word
`garbage` and scores 99/4000, row 1 is scored 21/200 — strictly higher —
yet both fall below the 0.2 threshold, so `findHeaderRow` returns the
default index 0, which designates the noise row. -/
theorem noise_row_returned_despite_higher_score :
    findHeaderRow gridNoise = 0 ∧
      hasForbiddenWords (getRow gridNoise 0) = true ∧
      (1, JsNum.fin (21 / 200)) ∈ scoresOf gridNoise ∧
      (scoreRow gridNoise 0 (getRow gridNoise 0)).ltb (JsNum.fin (21 / 200)) = true := by
  have hs : scoresOf gridNoise = [(0, JsNum.fin (99 / 4000)), (1, JsNum.fin (21 / 200))] := by
    simp +decide [scoresOf, scoreAt, scoreRow, preScore, uniquenessRatio, uniqueCount,
      nonEmptyCount, textCellCount, isTextCell, headerTermMatches, cellTermMatches,
      commonHeaderTerms, hasForbiddenWords, forbiddenWords,
      evaluateConsistencyOfFollowingRows, lookaheadSlice, getRow, columnIsConsistent,
      columnValid, columnCells, columnTypes, typeCatOf, isDateLike, strIsNumeric, trimWs,
      isJsSpace, parseSign, takeDigits, parseExp, isDigitCh, Cell.isNonEmpty, stringifyLower,
      strLower, isSubstring, jsDiv, JsNum.add, JsNum.mulC, List.range_succ, gridNoise]
    norm_num
  have hrow : getRow gridNoise 0 =
      [Cell.cstr ("garbage".toList), Cell.cnull, Cell.cnull, Cell.cnull] := by decide
  have hsc : scoreRow gridNoise 0 (getRow gridNoise 0) = JsNum.fin (99 / 4000) := by
    rw [hrow]
    simp +decide [scoreRow, preScore, uniquenessRatio, uniqueCount,
      nonEmptyCount, textCellCount, isTextCell, headerTermMatches, cellTermMatches,
      commonHeaderTerms, hasForbiddenWords, forbiddenWords,
      evaluateConsistencyOfFollowingRows, lookaheadSlice, getRow, columnIsConsistent,
      columnValid, columnCells, columnTypes, typeCatOf, isDateLike, strIsNumeric, trimWs,
      isJsSpace, parseSign, takeDigits, parseExp, isDigitCh, Cell.isNonEmpty, stringifyLower,
      strLower, isSubstring, jsDiv, JsNum.add, JsNum.mulC, gridNoise]
    norm_num
  refine ⟨?_, by rw [hrow]; decide, by rw [hs]; simp, ?_⟩
  · unfold findHeaderRow
    rw [if_neg (by decide), hs]
    simp only [selectBest, List.foldl_cons, List.foldl_nil, pickBetter, JsNum.ltb]
    norm_num
  · rw [hsc]
    simp only [JsNum.ltb]
    norm_num

/-- C6 (amended): a row containing a noise-vocabulary word never keeps more
than 0.3 of its pre-penalty score, and whenever the locator's result comes
from the maximum-score branch (best score at least 0.2) no scanned row
scores strictly higher than the selected entry; via the below-0.2 default,
however, the locator can return index 0 even though row 0 contains a noise
word and another scanned row scores strictly higher. -/
theorem noise_penalty (g : Grid) (i : Nat) (row : Row)
    (hf : hasForbiddenWords row = true) :
    (scoreRow g i row).leb ((preScore g i row).mulC (3 / 10)) = true ∧
      (∀ q : Nat × JsNum, selectBest (scoresOf g) = some q →
        q.2.ltb (JsNum.fin (1 / 5)) = false →
          findHeaderRow g = q.1 ∧ ∀ p ∈ scoresOf g, q.2.ltb p.2 = false) := by
  constructor
  · simp only [scoreRow]
    rw [if_pos hf]
    by_cases h1 : nonEmptyCount row = 1
    · rw [if_pos h1]
      have hp := preScore_nonneg g i row
      cases hq : preScore g i row with
      | inf => simp [JsNum.mulC, JsNum.leb]
      | fin v =>
        rw [hq] at hp
        simp only [JsNum.leb, decide_eq_true_eq] at hp
        simp only [JsNum.mulC, JsNum.leb, decide_eq_true_eq]
        nlinarith
    · rw [if_neg h1]
      exact JsNum.leb_refl _
  · intro q hsel hge
    obtain ⟨hmem, hmax, hfirst⟩ := selectBest_spec hsel
    refine ⟨?_, hmax⟩
    rcases findHeaderRow_cases g with ⟨hn, _⟩ | ⟨q2, hs2, hq2⟩
    · rw [hn] at hsel
      exact absurd hsel (by simp)
    · rw [hs2] at hsel
      obtain rfl := Option.some_inj.mp hsel
      rcases hq2 with ⟨hlt, _⟩ | ⟨_, hf2⟩
      · rw [hge] at hlt
        exact absurd hlt (by simp)
      · exact hf2

theorem noise_penalty_witness :
    hasForbiddenWords [Cell.cstr ("garbage".toList)] = true ∧
      (scoreRow [] 0 [Cell.cstr ("garbage".toList)]).leb
        ((preScore [] 0 [Cell.cstr ("garbage".toList)]).mulC (3 / 10)) = true :=
  ⟨by decide, (noise_penalty [] 0 [Cell.cstr ("garbage".toList)] (by decide)).1⟩


theorem alookup_cons {α : Type} (p : Str × α) (rest : List (Str × α)) (k : Str) :
    alookup (p :: rest) k = if p.1 = k then some p.2 else alookup rest k := by
  unfold alookup
  by_cases h : p.1 = k
  · rw [List.find?_cons_of_pos _ (by simpa using h), if_pos h]
    rfl
  · rw [List.find?_cons_of_neg _ (by simpa using h), if_neg h]

theorem alookup_eq_none {α : Type} {l : List (Str × α)} {k : Str}
    (h : k ∉ l.map Prod.fst) : alookup l k = none := by
  induction l with
  | nil => rfl
  | cons p rest ih =>
    simp only [List.map_cons, List.mem_cons] at h
    push_neg at h
    rw [alookup_cons, if_neg (fun he => h.1 he.symm)]
    exact ih h.2

theorem alookup_isSome_of_mem {α : Type} {l : List (Str × α)} {k : Str}
    (h : k ∈ l.map Prod.fst) : ∃ v, alookup l k = some v := by
  induction l with
  | nil => simp at h
  | cons p rest ih =>
    by_cases hk : p.1 = k
    · exact ⟨p.2, by rw [alookup_cons, if_pos hk]⟩
    · simp only [List.map_cons, List.mem_cons] at h
      rcases h with h | h
      · exact absurd h.symm hk
      · obtain ⟨v, hv⟩ := ih h
        exact ⟨v, by rw [alookup_cons, if_neg hk]; exact hv⟩

theorem alookup_append_single {α : Type} (l : List (Str × α)) (k k2 : Str) (v : α) :
    alookup (l ++ [(k, v)]) k2 =
      match alookup l k2 with
      | some x => some x
      | none => if k = k2 then some v else none := by
  induction l with
  | nil =>
    simp only [List.nil_append, alookup_cons]
    by_cases h : k = k2 <;> simp [alookup, h]
  | cons p rest ih =>
    rw [List.cons_append, alookup_cons, alookup_cons]
    by_cases h : p.1 = k2
    · rw [if_pos h, if_pos h]
    · rw [if_neg h, if_neg h]
      exact ih

theorem alookup_update (l : List (Str × List ℚ)) (k k2 : Str) (a : ℚ) :
    alookup (l.map (fun p => if p.1 = k then (p.1, p.2 ++ [a]) else p)) k2 =
      if k2 = k then (alookup l k).map (fun xs => xs ++ [a]) else alookup l k2 := by
  induction l with
  | nil => by_cases hk : k2 = k <;> simp [alookup, hk]
  | cons p rest ih =>
    rw [List.map_cons]
    by_cases hp : p.1 = k
    · by_cases hk : k2 = k
      · subst hk
        simp [hp, alookup_cons, ih]
      · have hp2 : ¬ p.1 = k2 := fun h => hk (h.symm.trans hp)
        have hk2 : ¬ k = k2 := fun h => hk h.symm
        simp [hp, hk, hp2, hk2, alookup_cons, ih]
    · by_cases hk : k2 = k
      · subst hk
        have hp2 : ¬ p.1 = k2 := hp
        simp [hp, hp2, alookup_cons, ih]
      · by_cases hp3 : p.1 = k2
        · simp [hp, hp3, alookup_cons, ih, hk]
        · simp [hp, hp3, alookup_cons, ih, hk]

theorem alookup_pushAmount (acc : List (Str × List ℚ)) (k k2 : Str) (a : ℚ) :
    alookup (pushAmount acc k a) k2 =
      if k2 = k then some ((alookup acc k).getD [] ++ [a]) else alookup acc k2 := by
  unfold pushAmount
  by_cases hmem : k ∈ acc.map Prod.fst
  · rw [if_pos hmem, alookup_update]
    by_cases hk : k2 = k
    · rw [if_pos hk, if_pos hk]
      obtain ⟨v, hv⟩ := alookup_isSome_of_mem hmem
      rw [hv]
      simp
    · rw [if_neg hk, if_neg hk]
  · rw [if_neg hmem, alookup_append_single]
    by_cases hk : k2 = k
    · subst hk
      rw [alookup_eq_none hmem, if_pos rfl]
      simp [alookup_eq_none hmem]
    · rw [if_neg hk]
      cases h2 : alookup acc k2 with
      | some x => rfl
      | none =>
        have hk2 : ¬ k = k2 := fun h => hk h.symm
        simp [hk2]

theorem alookup_map_sum (l : List (Str × List ℚ)) (k : Str) :
    alookup (l.map (fun p => (p.1, p.2.foldl (fun total amt => total + amt) 0))) k =
      (alookup l k).map (fun xs => xs.foldl (fun total amt => total + amt) 0) := by
  induction l with
  | nil => rfl
  | cons p rest ih =>
    rw [List.map_cons]
    by_cases h : p.1 = k
    · simp [alookup_cons, h]
    · simp [alookup_cons, h, ih]

theorem foldl_add_getD_comm (o : Option (List ℚ)) :
    (o.map (fun xs => xs.foldl (fun total amt => total + amt) 0)).getD 0 =
      (o.getD []).foldl (fun total amt => total + amt) 0 := by
  cases o <;> rfl

theorem amounts_foldl (idF : Str) (amtF : Option Str) (data : List Record) :
    ∀ (acc : List (Str × List ℚ)) (k : Str),
      (alookup (data.foldl (fun acc row =>
          pushAmount acc (stringifyKey (lookupField row idF))
            (parseRemitAmount amtF row)) acc) k).getD [] =
        (alookup acc k).getD [] ++
          (data.filter (fun row => decide (stringifyKey (lookupField row idF) = k))).map
            (parseRemitAmount amtF) := by
  induction data with
  | nil => intro acc k; simp
  | cons row rest ih =>
    intro acc k
    rw [List.foldl_cons, ih]
    by_cases h : stringifyKey (lookupField row idF) = k
    · rw [alookup_pushAmount, if_pos h.symm]
      simp [List.filter_cons, h]
    · rw [alookup_pushAmount, if_neg (fun hh => h hh.symm)]
      simp [List.filter_cons, h]

theorem remittanceAmtSumByID_lookup (data : List Record) (idF : Str) (amtF : Option Str)
    (k : Str) :
    (alookup (remittanceAmtSumByID data idF amtF) k).getD 0 =
      ((data.filter (fun row => decide (stringifyKey (lookupField row idF) = k))).map
        (parseRemitAmount amtF)).sum := by
  unfold remittanceAmtSumByID remittanceAmountsByID
  rw [alookup_map_sum, foldl_add_getD_comm, amounts_foldl]
  rw [List.sum_eq_foldl]
  simp [alookup]

theorem numToString_seven : numToString 7 = ['7'] := by
  simp only [numToString, numToStringNN]
  rw [if_neg (by norm_num)]
  have h0 : ⌊(7 : ℚ)⌋ = 7 := by norm_num
  have h1 : (⌊(7 : ℚ)⌋).toNat = 7 := by rw [h0]; rfl
  rw [h1]
  have h2 : (7 : ℚ) - ((7 : ℕ) : ℚ) = 0 := by norm_num
  rw [h2]
  simp
  decide

/-- C7 (counterexample): the aggregate table does not map "each identifier"
to the sum over the records bearing that identifier: JS object keys are
strings, so the numeric identifier `7` and the text identifier `"7"` share
the key `"7"`.  On `dataMix` the table entry under identifier `7`'s key is
3 (both rows summed), while the parsed-amount sum over the records whose
identifier value equals the number `7` is 1. -/
theorem aggregator_coerces_identifier_keys :
    stringifyKey (some (Cell.cnum 7)) = ['7'] ∧
      (alookup (remittanceAmtSumByID dataMix ("Id".toList) (some ("Amt".toList)))
        ['7']).getD 0 = 3 ∧
      ((dataMix.filter (fun row =>
          decide (lookupField row ("Id".toList) = some (Cell.cnum 7)))).map
        (parseRemitAmount (some ("Amt".toList)))).sum = 1 := by
  refine ⟨by simp [stringifyKey, numToString_seven], ?_, ?_⟩
  · rw [remittanceAmtSumByID_lookup]
    simp +decide [dataMix, stringifyKey, numToString_seven, lookupField, alookup,
      parseRemitAmount, aggAmountOfCell, List.filter_cons]
    norm_num
  · simp +decide [dataMix, lookupField, alookup, parseRemitAmount, aggAmountOfCell,
      List.filter_cons]

/-- C7 (amended): the aggregate table is keyed by the JS property string of
the identifier value.  For every key `k` it maps `k` to the arithmetic sum
of the parsed amounts of exactly the source records whose identifier
stringifies to `k` — identifiers of different types with the same string
form (number `7`, text `"7"`) share one entry summing both groups — with 0
contributed per record when the amount field is undefined; in particular,
on the specification's example source set, identifier `"A"` aggregates to
60.75. -/
theorem aggregator_sums_by_stringified_id (data : List Record) (idF : Str)
    (amtF : Option Str) (k : Str) :
    (alookup (remittanceAmtSumByID data idF amtF) k).getD 0 =
        ((data.filter (fun row => decide (stringifyKey (lookupField row idF) = k))).map
          (parseRemitAmount amtF)).sum ∧
      (∀ row : Record, parseRemitAmount none row = 0) ∧
      (alookup (remittanceAmtSumByID dataC7 ("Id".toList) (some ("Amt".toList)))
        ['A']).getD 0 = 243 / 4 := by
  refine ⟨remittanceAmtSumByID_lookup data idF amtF k, fun row => rfl, ?_⟩
  rw [remittanceAmtSumByID_lookup]
  simp +decide [dataC7, stringifyKey, lookupField, alookup, parseRemitAmount,
    aggAmountOfCell, List.filter_cons, parseFloatOrZero, parseFloatCore, cleanAmt,
    takeDigits, parseSign, isDigitCh, digitsVal, isJsSpace, parseExp]
  norm_num

theorem lookupField_of_nodup {row : Record} (hnd : (recordKeys row).Nodup) {k : Str} {v : Cell}
    (hmem : (k, v) ∈ row) : lookupField row k = some v := by
  induction row with
  | nil => simp at hmem
  | cons p rest ih =>
    unfold recordKeys at hnd
    rw [List.map_cons, List.nodup_cons] at hnd
    rcases List.mem_cons.mp hmem with rfl | hmem'
    · show alookup _ _ = _
      rw [alookup_cons, if_pos rfl]
    · have hne : p.1 ≠ k := by
        intro he
        exact hnd.1 (he ▸ List.mem_map.mpr ⟨(k, v), hmem', rfl⟩)
      show alookup _ _ = _
      rw [alookup_cons, if_neg hne]
      exact ih hnd.2 hmem'

theorem objInsert_fresh {r : Record} {k : Str} (v : Cell) (h : k ∉ recordKeys r) :
    objInsert r k v = r ++ [(k, v)] := by
  unfold objInsert
  rw [if_neg h]

theorem recordKeys_append (r1 r2 : Record) :
    recordKeys (r1 ++ r2) = recordKeys r1 ++ recordKeys r2 := List.map_append _ _ _

theorem enumFrom_fst_bounds {α : Type} :
    ∀ (l : List α) (n : Nat) (q : Nat × α), q ∈ List.enumFrom n l →
      n ≤ q.1 ∧ q.1 < n + l.length := by
  intro l
  induction l with
  | nil => intro n q hq; simp [List.enumFrom] at hq
  | cons a rest ih =>
    intro n q hq
    rw [show List.enumFrom n (a :: rest) = (n, a) :: List.enumFrom (n + 1) rest from rfl]
      at hq
    rcases List.mem_cons.mp hq with rfl | hq'
    · simp
    · have := ih (n + 1) q hq'
      constructor <;> [omega; (simp only [List.length_cons]; omega)]

theorem enrich_fold_no_hit (row : Record) (amtIdx : Option Nat) (vR vJ : Cell) :
    ∀ (tl : List (Nat × Str)) (acc : Record),
      (∀ q ∈ tl, ¬ amtIdx = some q.1) →
      (∀ q ∈ tl, q.2 ∉ recordKeys acc) →
      (tl.map Prod.snd).Nodup →
      tl.foldl (enrichStep row amtIdx vR vJ) acc =
        acc ++ tl.map (fun q => (q.2, (lookupField row q.2).getD Cell.cnull)) := by
  intro tl
  induction tl with
  | nil => intro acc _ _ _; simp
  | cons q rest ih =>
    intro acc h1 h2 h3
    rw [List.foldl_cons]
    have hq1 := h1 q (List.mem_cons_self q rest)
    have hq2 := h2 q (List.mem_cons_self q rest)
    have hstep : enrichStep row amtIdx vR vJ acc q =
        acc ++ [(q.2, (lookupField row q.2).getD Cell.cnull)] := by
      simp only [enrichStep, if_neg hq1]
      exact objInsert_fresh _ hq2
    rw [hstep]
    rw [List.map_cons, List.nodup_cons] at h3
    rw [ih (acc ++ [(q.2, (lookupField row q.2).getD Cell.cnull)])
      (fun p hp => h1 p (List.mem_cons_of_mem q hp))
      (fun p hp => by
        rw [recordKeys_append]
        simp only [recordKeys, List.map_cons, List.map_nil]
        intro hc
        rcases List.mem_append.mp hc with hc | hc
        · exact h2 p (List.mem_cons_of_mem q hp) hc
        · rcases List.mem_singleton.mp hc with hc
          exact h3.1 (hc ▸ List.mem_map.mpr ⟨p, hp, rfl⟩))
      h3.2]
    simp

theorem findIdx?_hit (p : Str → Bool) (a : Str) (l2 : List Str) (hp : p a = true) :
    ∀ (l1 : List Str) (i : Nat), (∀ k ∈ l1, p k = false) →
      List.findIdx? p (l1 ++ a :: l2) i = some (i + l1.length) := by
  intro l1
  induction l1 with
  | nil =>
    intro i _
    rw [List.nil_append, List.findIdx?_cons, if_pos hp]
    simp
  | cons k rest ih =>
    intro i h
    rw [List.cons_append, List.findIdx?_cons,
      if_neg (by rw [h k (List.mem_cons_self k rest)]; simp)]
    rw [ih (i + 1) (fun x hx => h x (List.mem_cons_of_mem k hx))]
    congr 1
    simp only [List.length_cons]
    omega

theorem enumFrom_map_pairs (g : Str → Str × Cell) (n : Nat) (l : List Str) :
    (List.enumFrom n l).map (fun q => g q.2) = l.map g := by
  rw [show (fun q : Nat × Str => g q.2) = g ∘ Prod.snd from rfl, ← List.map_map,
    List.enumFrom_map_snd]

theorem rebuild_map_id {row : Record} (hnd : (recordKeys row).Nodup) (seg : Record)
    (hseg : ∀ p ∈ seg, p ∈ row) :
    (recordKeys seg).map (fun k => (k, (lookupField row k).getD Cell.cnull)) = seg := by
  unfold recordKeys
  rw [List.map_map]
  have hcong : ∀ p ∈ seg,
      ((fun k => (k, (lookupField row k).getD Cell.cnull)) ∘ Prod.fst) p = p := by
    intro p hp
    have hl := lookupField_of_nodup hnd
      (show (p.1, p.2) ∈ row from by rw [Prod.mk.eta]; exact hseg p hp)
    simp [Function.comp, hl]
  rw [List.map_congr_left hcong]
  simp

/-- C9 (counterexample): enrichment does not always leave the other fields
unchanged and insert right after the `Amt` field.  On a matched record that
already has a `Remit Amt` field before `Amt`, the rebuild overwrites that
field in place (1 becomes 0) and appends only `Rejected Amount` at the end,
because a JS object cannot hold the inserted key twice. -/
theorem enrichment_overwrites_existing_field :
    enrichRow ("Id".toList) [] rowC9bad =
      [(remitAmtKey, Cell.cnum 0), ("Amt".toList, Cell.cnum 100),
       (rejectedAmountKey, Cell.cnum 100)] ∧
      lookupField rowC9bad remitAmtKey = some (Cell.cnum 1) := by
  constructor
  · simp +decide [enrichRow, enrichStep, rowC9bad, recordKeys, lookupField, alookup,
      stringifyKey, objInsert, reconParse, jsRound, remitAmtKey, rejectedAmountKey,
      amtKeyLower, amtKeyExact, strLower, List.enum, List.enumFrom, List.foldl]
    norm_num
  · simp +decide [rowC9bad, lookupField, alookup, remitAmtKey]

/-- C9 (amended): for every matched record whose field labels are pairwise
distinct (as in any JS object) and which does not already contain a
`Remit Amt` or `Rejected Amount` field: if the record splits as
`pre ++ (ak, av) :: post` where `ak` is the FIRST label equal to `amt`
case-insensitively, enrichment yields exactly
`pre ++ (ak, av) :: ("Remit Amt", remit) :: ("Rejected Amount", rejected)
:: post` — the two fields inserted immediately after that field with
`remit = aggregateTable[String(record[idField])] or 0` and `rejected =
round((parseFloat(record["Amt"]) or 0 − remit) × 100) / 100`, all other
fields and their order unchanged; and if no label matches `amt`
case-insensitively the record passes through unchanged.  The
specification's concrete example enriches as stated. -/
theorem enrichment_inserts_after_amt (f : Str) (sums : List (Str × ℚ)) (row : Record)
    (hnd : (recordKeys row).Nodup)
    (hra : remitAmtKey ∉ recordKeys row)
    (hrj : rejectedAmountKey ∉ recordKeys row) :
    (∀ (pre post : Record) (ak : Str) (av : Cell),
      row = pre ++ (ak, av) :: post →
      (∀ k ∈ recordKeys pre, ¬ strLower k = amtKeyLower) →
      strLower ak = amtKeyLower →
      enrichRow f sums row =
        pre ++ (ak, av) ::
          (remitAmtKey, Cell.cnum ((alookup sums (stringifyKey
            (lookupField row f))).getD 0)) ::
          (rejectedAmountKey, Cell.cnum (((jsRound ((reconParse
            (lookupField row amtKeyExact) -
            (alookup sums (stringifyKey (lookupField row f))).getD 0)
            * 100) : ℚ)) / 100)) :: post) ∧
    ((∀ k ∈ recordKeys row, ¬ strLower k = amtKeyLower) → enrichRow f sums row = row) ∧
    enrichRow ("Id".toList) [("A".toList, (243 : ℚ) / 4)] rowC9 =
      [("Id".toList, Cell.cstr ['A']), ("Amt".toList, Cell.cnum 100),
       (remitAmtKey, Cell.cnum (243 / 4)), (rejectedAmountKey, Cell.cnum (157 / 4))] := by
  refine ⟨?_, ?_, ?_⟩
  · intro pre post ak av hrow hpre hak
    subst hrow
    have hkeys : recordKeys (pre ++ (ak, av) :: post) =
        recordKeys pre ++ ak :: recordKeys post := by
      simp [recordKeys]
    have hnd' : (recordKeys pre ++ ak :: recordKeys post).Nodup := by
      rw [← hkeys]; exact hnd
    obtain ⟨hpreNodup, hconsNodup, hdisj⟩ := List.nodup_append.mp hnd'
    have hpostNodup : (recordKeys post).Nodup := (List.nodup_cons.mp hconsNodup).2
    have haknotpost : ak ∉ recordKeys post := (List.nodup_cons.mp hconsNodup).1
    have haknotpre : ak ∉ recordKeys pre := fun h => hdisj h (List.mem_cons_self _ _)
    have hraPre : remitAmtKey ∉ recordKeys pre := fun h =>
      hra (by rw [hkeys]; exact List.mem_append_left _ h)
    have hraAk : remitAmtKey ≠ ak := fun h =>
      hra (by rw [hkeys]; exact List.mem_append_right _ (h ▸ List.mem_cons_self _ _))
    have hraPost : remitAmtKey ∉ recordKeys post := fun h =>
      hra (by rw [hkeys]; exact List.mem_append_right _ (List.mem_cons_of_mem _ h))
    have hrjPre : rejectedAmountKey ∉ recordKeys pre := fun h =>
      hrj (by rw [hkeys]; exact List.mem_append_left _ h)
    have hrjAk : rejectedAmountKey ≠ ak := fun h =>
      hrj (by rw [hkeys]; exact List.mem_append_right _ (h ▸ List.mem_cons_self _ _))
    have hrjPost : rejectedAmountKey ∉ recordKeys post := fun h =>
      hrj (by rw [hkeys]; exact List.mem_append_right _ (List.mem_cons_of_mem _ h))
    have hidx : (recordKeys (pre ++ (ak, av) :: post)).findIdx?
        (fun h => decide (strLower h = amtKeyLower)) = some (recordKeys pre).length := by
      rw [hkeys]
      have h0 := findIdx?_hit (fun h => decide (strLower h = amtKeyLower)) ak
        (recordKeys post) (by simp [hak]) (recordKeys pre) 0 (fun k hk => by simp [hpre k hk])
      simpa using h0
    simp only [enrichRow, hidx]
    rw [show (recordKeys (pre ++ (ak, av) :: post)).enum =
      List.enumFrom 0 (recordKeys (pre ++ (ak, av) :: post)) from rfl, hkeys,
      List.enumFrom_append]
    rw [show List.enumFrom (0 + (recordKeys pre).length) (ak :: recordKeys post) =
      (0 + (recordKeys pre).length, ak) ::
        List.enumFrom (0 + (recordKeys pre).length + 1) (recordKeys post) from rfl]
    rw [List.foldl_append, List.foldl_cons]
    rw [enrich_fold_no_hit (pre ++ (ak, av) :: post) (some (recordKeys pre).length) _ _
      (List.enumFrom 0 (recordKeys pre)) []
      (fun q hq => by
        have hb := enumFrom_fst_bounds (recordKeys pre) 0 q hq
        simp only [Option.some.injEq]
        omega)
      (fun q _ => by simp [recordKeys])
      (by rw [List.enumFrom_map_snd]; exact hpreNodup)]
    rw [List.nil_append,
      enumFrom_map_pairs (fun k =>
        (k, (lookupField (pre ++ (ak, av) :: post) k).getD Cell.cnull)) 0,
      rebuild_map_id hnd pre (fun p hp => List.mem_append_left _ hp)]
    have hav : lookupField (pre ++ (ak, av) :: post) ak = some av :=
      lookupField_of_nodup hnd (List.mem_append_right _ (List.mem_cons_self _ _))
    have hstep : ∀ vR vJ : Cell,
        enrichStep (pre ++ (ak, av) :: post) (some (recordKeys pre).length) vR vJ pre
          (0 + (recordKeys pre).length, ak) =
        ((pre ++ [(ak, av)]) ++ [(remitAmtKey, vR)]) ++ [(rejectedAmountKey, vJ)] := by
      intro vR vJ
      simp only [enrichStep]
      rw [if_pos (by simp)]
      rw [hav]
      simp only [Option.getD_some]
      rw [objInsert_fresh av haknotpre]
      rw [objInsert_fresh vR (by
        rw [recordKeys_append]
        intro hc
        rcases List.mem_append.mp hc with hc | hc
        · exact hraPre hc
        · simp only [recordKeys, List.map_cons, List.map_nil, List.mem_singleton] at hc
          exact hraAk hc)]
      rw [objInsert_fresh vJ (by
        rw [recordKeys_append, recordKeys_append]
        intro hc
        rcases List.mem_append.mp hc with hc | hc
        · rcases List.mem_append.mp hc with hc | hc
          · exact hrjPre hc
          · simp only [recordKeys, List.map_cons, List.map_nil, List.mem_singleton] at hc
            exact hrjAk hc
        · simp only [recordKeys, List.map_cons, List.map_nil, List.mem_singleton] at hc
          exact absurd hc (by decide))]
    rw [hstep]
    rw [enrich_fold_no_hit (pre ++ (ak, av) :: post) (some (recordKeys pre).length) _ _
      (List.enumFrom (0 + (recordKeys pre).length + 1) (recordKeys post))
      (((pre ++ [(ak, av)]) ++ [(remitAmtKey, _)]) ++ [(rejectedAmountKey, _)])
      (fun q hq => by
        have hb := enumFrom_fst_bounds (recordKeys post) _ q hq
        simp only [Option.some.injEq]
        omega)
      (fun q hq => by
        have hq2 : q.2 ∈ recordKeys post := by
          have hm := List.mem_map_of_mem Prod.snd hq
          rwa [List.enumFrom_map_snd] at hm
        rw [recordKeys_append, recordKeys_append, recordKeys_append]
        intro hc
        rcases List.mem_append.mp hc with hc | hc
        · rcases List.mem_append.mp hc with hc | hc
          · rcases List.mem_append.mp hc with hc | hc
            · exact hdisj hc (List.mem_cons_of_mem _ hq2)
            · simp only [recordKeys, List.map_cons, List.map_nil, List.mem_singleton] at hc
              exact haknotpost (hc ▸ hq2)
          · simp only [recordKeys, List.map_cons, List.map_nil, List.mem_singleton] at hc
            exact hraPost (hc ▸ hq2)
        · simp only [recordKeys, List.map_cons, List.map_nil, List.mem_singleton] at hc
          exact hrjPost (hc ▸ hq2))
      (by rw [List.enumFrom_map_snd]; exact hpostNodup)]
    rw [enumFrom_map_pairs (fun k =>
        (k, (lookupField (pre ++ (ak, av) :: post) k).getD Cell.cnull)),
      rebuild_map_id hnd post (fun p hp =>
        List.mem_append_right _ (List.mem_cons_of_mem _ hp))]
    simp [List.append_assoc]
  · intro hall
    have hidx : (recordKeys row).findIdx?
        (fun h => decide (strLower h = amtKeyLower)) = none :=
      List.findIdx?_eq_none_iff.mpr (fun k hk => by simp [hall k hk])
    simp only [enrichRow, hidx]
    rw [show (recordKeys row).enum = List.enumFrom 0 (recordKeys row) from rfl]
    rw [enrich_fold_no_hit row none _ _ (List.enumFrom 0 (recordKeys row)) []
      (fun q _ => by simp) (fun q _ => by simp [recordKeys])
      (by rw [List.enumFrom_map_snd]; exact hnd)]
    rw [List.nil_append]
    rw [enumFrom_map_pairs (fun k => (k, (lookupField row k).getD Cell.cnull)) 0
      (recordKeys row)]
    exact rebuild_map_id hnd row (fun p hp => hp)
  · simp +decide [enrichRow, enrichStep, rowC9, recordKeys, lookupField, alookup,
      stringifyKey, objInsert, reconParse, jsRound, remitAmtKey, rejectedAmountKey,
      amtKeyLower, amtKeyExact, strLower, List.enum, List.enumFrom, List.foldl]
    norm_num

theorem enrichment_inserts_after_amt_witness :
    (recordKeys rowC9).Nodup ∧ remitAmtKey ∉ recordKeys rowC9 ∧
      rejectedAmountKey ∉ recordKeys rowC9 ∧
      rowC9 = [("Id".toList, Cell.cstr ['A'])] ++ ("Amt".toList, Cell.cnum 100) :: [] ∧
      enrichRow ("Id".toList) [("A".toList, (243 : ℚ) / 4)] rowC9 =
        [("Id".toList, Cell.cstr ['A'])] ++ ("Amt".toList, Cell.cnum 100) ::
          (remitAmtKey, Cell.cnum ((alookup [("A".toList, (243 : ℚ) / 4)] (stringifyKey
            (lookupField rowC9 ("Id".toList)))).getD 0)) ::
          (rejectedAmountKey, Cell.cnum (((jsRound ((reconParse
            (lookupField rowC9 amtKeyExact) -
            (alookup [("A".toList, (243 : ℚ) / 4)] (stringifyKey
              (lookupField rowC9 ("Id".toList)))).getD 0)
            * 100) : ℚ)) / 100)) :: [] :=
  ⟨by decide, by decide, by decide, by decide,
    (enrichment_inserts_after_amt ("Id".toList) [("A".toList, (243 : ℚ) / 4)] rowC9
      (by decide) (by decide) (by decide)).1
      [("Id".toList, Cell.cstr ['A'])] [] ("Amt".toList) (Cell.cnum 100)
      (by decide) (by decide) (by decide)⟩
